import Mathlib

/-!
Shallow embedding of `solver.py` (propositional-logic brute-force solver).

The Python program is dynamically typed: a `Node` field `left_val` / `right_val`
can hold another `Node`, a string (a variable / constant name) or `None`.
We model such values with a single inductive `PyVal`:
  * `PyVal.node l r ty`  mirrors `Node(left_val, right_val, ty)`;
  * `PyVal.str s`        a Python string payload;
  * `PyVal.pynone`       Python `None`.

Fallible operations (Python exceptions, `print_err` + `exit(1)`) are modelled
with `Except String` (parser) and `Option` (evaluator, solver construction).
Evaluation of malformed trees (tags outside the nine handled ones, or children
of the wrong shape) in Python either raises or propagates `None` through
truthiness; both abnormal outcomes are collapsed to `none` here.  The theorems
below prove that trees produced by the parser never hit those cases.
-/

inductive PyVal where
  | node (left_val : PyVal) (right_val : PyVal) (ty : String)
  | str (s : String)
  | pynone
deriving DecidableEq, Repr

namespace ProplSolver

/-- `isinstance(x, Node)` -/
def isNode : PyVal → Bool
  | PyVal.node _ _ _ => true
  | _ => false

/-- Extract a Python string payload, if the value is a string. -/
def strVal : PyVal → Option String
  | PyVal.str s => some s
  | _ => none

/-! ## Tokenizer: `tokenize_expr`, i.e. `re.findall(r"\w+|\S", expr.strip())` -/

/-- A regex `\w` character (ASCII reading): letter, digit or underscore. -/
def isWordChar (c : Char) : Bool := c.isAlphanum || c == '_'

/-- Scan characters left to right; `acc` is the current (reversed) run of word
characters.  Maximal word runs become one token, any other non-whitespace
character becomes a single-character token, whitespace separates tokens. -/
def tokenizeGo (acc : List Char) : List Char → List String
  | [] => if acc.isEmpty then [] else [String.mk acc.reverse]
  | c :: rest =>
    if isWordChar c then tokenizeGo (c :: acc) rest
    else
      let pre := if acc.isEmpty then [] else [String.mk acc.reverse]
      if c.isWhitespace then pre ++ tokenizeGo [] rest
      else pre ++ String.mk [c] :: tokenizeGo [] rest

/-- `tokenize_expr(expr)`: stripping is a no-op for the scan, whitespace is
skipped anyway. -/
def tokenize_expr (s : String) : List String := tokenizeGo [] s.data

/-! ## Evaluator: `Solver._solve_expr` -/

/-- `Solver._solve_expr`, with the solver state passed explicitly:
`vars` is `self.vars` (the sorted variable list) and `values` is
`self.values` (the current assignment vector).  `none` models an abnormal
outcome (exception, or a `None` return from an unhandled tag). -/
def solve_expr (vars : List String) (values : List Bool) : PyVal → Option Bool
  | PyVal.node l r ty =>
    if ty = "var" then
      if l = PyVal.str "0" then some false
      else if l = PyVal.str "1" then some true
      else
        match l with
        | PyVal.str s =>
          match vars.indexOf? s with
          | some i => values.get? i
          | none => none
        | _ => none
    else if ty = "!" then
      (solve_expr vars values l).map (fun b => !b)
    else if ty = "&" then
      (solve_expr vars values l).bind fun a =>
        if a then solve_expr vars values r else some false
    else if ty = "|" then
      (solve_expr vars values l).bind fun a =>
        if a then some true else solve_expr vars values r
    else if ty = "^" then
      (solve_expr vars values l).bind fun a =>
        (solve_expr vars values r).map fun b => a != b
    else if ty = "=" then
      (solve_expr vars values l).bind fun a =>
        (solve_expr vars values r).map fun b => a == b
    else if ty = "nand" then
      (solve_expr vars values l).bind fun a =>
        if a then (solve_expr vars values r).map (fun b => !b) else some true
    else if ty = "nor" then
      (solve_expr vars values l).bind fun a =>
        if a then some false else (solve_expr vars values r).map (fun b => !b)
    else if ty = ">" then
      (solve_expr vars values l).bind fun a =>
        if a then solve_expr vars values r else some true
    else none
  | _ => none

/-! ## Enumeration: `Solver._next_combination` -/

/-- `Solver._next_combination`: binary-counter increment on the assignment
vector, index 0 (head) is the least significant bit.  Past the end of the
vector the carry is dropped. -/
def next_combination : List Bool → List Bool
  | [] => []
  | false :: rest => true :: rest
  | true :: rest => false :: next_combination rest

/-- Read an assignment vector as a binary number, head = bit 0. -/
def vecToNat : List Bool → Nat
  | [] => 0
  | b :: rest => (if b then 1 else 0) + 2 * vecToNat rest

/-! ## Variable collection: `get_vars_expr`, `get_vars_expr_list` -/

/-- Python `set.add`, with the set modelled as a duplicate-free list. -/
def setAdd (s : List PyVal) (v : PyVal) : List PyVal :=
  if v ∈ s then s else s ++ [v]

/-- `get_vars_expr(expr, curr_vars)`: depth-first collection of the payloads of
non-constant `var` leaves into the set. -/
def get_vars_expr (expr : PyVal) (curr_vars : List PyVal) : List PyVal :=
  match expr with
  | PyVal.node l r ty =>
    if ty = "var" && l ≠ PyVal.str "0" && l ≠ PyVal.str "1" then
      setAdd curr_vars l
    else
      get_vars_expr r (get_vars_expr l curr_vars)
  | _ => curr_vars

/-- `get_vars_expr_list(exprs)` -/
def get_vars_expr_list (exprs : List PyVal) : List PyVal :=
  exprs.foldl (fun acc e => get_vars_expr e acc) []

/-- The order `list.sort` uses on Python strings (code-point lexicographic) is
the `≤` of `String`; this `Decidable` instance for it compares the underlying
character lists, so that it evaluates by kernel reduction. -/
def strLeDec : @DecidableRel String (· ≤ ·) := fun a b =>
  decidable_of_iff (a.toList ≤ b.toList) String.le_iff_toList_le.symm

/-- `Solver.__init__`: `self.vars = list(get_vars_expr_list(exprs)); self.vars.sort()`.
Sorting a set that contains a non-string (possible only for trees no parse can
produce) raises `TypeError` in Python; that outcome is `none`. -/
def solver_vars (exprs : List PyVal) : Option (List String) :=
  let collected := get_vars_expr_list exprs
  if collected.all (fun v => (strVal v).isSome) then
    some (@List.insertionSort String (· ≤ ·) strLeDec (collected.filterMap strVal))
  else
    none

instance exceptDecEq {e a : Type} [DecidableEq e] [DecidableEq a] :
    DecidableEq (Except e a)
  | Except.error x, Except.error y =>
    if h : x = y then Decidable.isTrue (by rw [h])
    else Decidable.isFalse (fun hc => h (Except.error.inj hc))
  | Except.error _, Except.ok _ => Decidable.isFalse Except.noConfusion
  | Except.ok _, Except.error _ => Decidable.isFalse Except.noConfusion
  | Except.ok x, Except.ok y =>
    if h : x = y then Decidable.isTrue (by rw [h])
    else Decidable.isFalse (fun hc => h (Except.ok.inj hc))

/-! ## Parser: class `Parser` -/

/-- Python `str.lower()` (ASCII reading), applied character-wise. -/
def pyLower (s : String) : String := String.mk (s.data.map Char.toLower)

/-- The mutable state of a `Parser` object: the token list, the cursor, and
the one-token lookahead (`None` once the tokens are exhausted). -/
structure ParserState where
  toks : List String
  curr_pos : Nat
  lookahead : Option String
deriving DecidableEq, Repr

/-- `Parser._consume(tok)`: checks the *raw* token at the cursor against
`tok`, advances, and refreshes the lookahead with the *raw* next token. -/
def consume (tok : String) (s : ParserState) :
    Except String (String × ParserState) :=
  match s.toks.get? s.curr_pos with
  | none =>
    Except.error ("[Error] Expected '" ++ tok ++ "' but got None instead")
  | some consumed =>
    if consumed ≠ tok then
      Except.error
        ("[Error] Expected '" ++ tok ++ "' but got '" ++ consumed ++ "' instead")
    else
      Except.ok (consumed,
        { toks := s.toks, curr_pos := s.curr_pos + 1,
          lookahead := s.toks.get? (s.curr_pos + 1) })

/-- `Parser._is_keyword(tok)`; the Python set also contains `None`. -/
def is_keyword : Option String → Bool
  | none => true
  | some t => t = "&" || t = "|" || t = "!" || t = "nor" || t = "nand" ||
      t = "^" || t = "=" || t = ">"

/-- Error used when the recursion fuel runs out; unreachable when the fuel
exceeds what the token list can demand. -/
def fuelError : String := "[Fuel] out of fuel"

mutual

/-- `Parser._parse_primary_expr` (fuel-indexed). -/
def parse_primary_expr : Nat → ParserState → Except String (PyVal × ParserState)
  | 0, _ => Except.error fuelError
  | fuel + 1, s =>
    if s.lookahead = some "!" then
      match consume "!" s with
      | Except.error e => Except.error e
      | Except.ok (_, s1) =>
        match parse_primary_expr fuel s1 with
        | Except.error e => Except.error e
        | Except.ok (child, s2) =>
          Except.ok (PyVal.node child PyVal.pynone "!", s2)
    else if s.lookahead = some "(" then
      match consume "(" s with
      | Except.error e => Except.error e
      | Except.ok (_, s1) =>
        match parse_low_prec_expr fuel s1 with
        | Except.error e => Except.error e
        | Except.ok (expr, s2) =>
          match consume ")" s2 with
          | Except.error e => Except.error e
          | Except.ok (_, s3) => Except.ok (expr, s3)
    else if ¬ is_keyword s.lookahead then
      match consume (s.lookahead.getD "") s with
      | Except.error e => Except.error e
      | Except.ok (consumed, s1) =>
        Except.ok (PyVal.node (PyVal.str consumed) PyVal.pynone "var", s1)
    else
      Except.error ("[Error] Expected primary expression but got " ++
        (s.lookahead.getD "None"))
termination_by structural fuel _ => fuel

/-- The `while` loop of `Parser._parse_high_prec_expr`, carrying the tree
built so far. -/
def parse_high_loop : Nat → PyVal → ParserState → Except String (PyVal × ParserState)
  | 0, _, _ => Except.error fuelError
  | fuel + 1, tree, s =>
    if s.lookahead = some "&" ∨ s.lookahead = some "^" then
      let junction := s.lookahead.getD ""
      match consume junction s with
      | Except.error e => Except.error e
      | Except.ok (_, s1) =>
        match parse_primary_expr fuel s1 with
        | Except.error e => Except.error e
        | Except.ok (rhs, s2) =>
          parse_high_loop fuel (PyVal.node tree rhs junction) s2
    else
      Except.ok (tree, s)
termination_by structural fuel _ _ => fuel

/-- `Parser._parse_high_prec_expr`. -/
def parse_high_prec_expr : Nat → ParserState → Except String (PyVal × ParserState)
  | 0, _ => Except.error fuelError
  | fuel + 1, s =>
    match parse_primary_expr fuel s with
    | Except.error e => Except.error e
    | Except.ok (tree, s1) => parse_high_loop fuel tree s1
termination_by structural fuel _ => fuel

/-- The `while` loop of `Parser._parse_med_prec_expr`. -/
def parse_med_loop : Nat → PyVal → ParserState → Except String (PyVal × ParserState)
  | 0, _, _ => Except.error fuelError
  | fuel + 1, tree, s =>
    if s.lookahead = some "|" ∨ s.lookahead = some "nor" ∨
        s.lookahead = some "nand" ∨ s.lookahead = some ">" then
      let junction := s.lookahead.getD ""
      match consume junction s with
      | Except.error e => Except.error e
      | Except.ok (_, s1) =>
        match parse_high_prec_expr fuel s1 with
        | Except.error e => Except.error e
        | Except.ok (rhs, s2) =>
          parse_med_loop fuel (PyVal.node tree rhs junction) s2
    else
      Except.ok (tree, s)
termination_by structural fuel _ _ => fuel

/-- `Parser._parse_med_prec_expr`. -/
def parse_med_prec_expr : Nat → ParserState → Except String (PyVal × ParserState)
  | 0, _ => Except.error fuelError
  | fuel + 1, s =>
    match parse_high_prec_expr fuel s with
    | Except.error e => Except.error e
    | Except.ok (tree, s1) => parse_med_loop fuel tree s1
termination_by structural fuel _ => fuel

/-- The `while` loop of `Parser._parse_low_prec_expr`. -/
def parse_low_loop : Nat → PyVal → ParserState → Except String (PyVal × ParserState)
  | 0, _, _ => Except.error fuelError
  | fuel + 1, tree, s =>
    if s.lookahead = some "=" then
      match consume "=" s with
      | Except.error e => Except.error e
      | Except.ok (_, s1) =>
        match parse_med_prec_expr fuel s1 with
        | Except.error e => Except.error e
        | Except.ok (rhs, s2) =>
          parse_low_loop fuel (PyVal.node tree rhs "=") s2
    else
      Except.ok (tree, s)
termination_by structural fuel _ _ => fuel

/-- `Parser._parse_low_prec_expr`. -/
def parse_low_prec_expr : Nat → ParserState → Except String (PyVal × ParserState)
  | 0, _ => Except.error fuelError
  | fuel + 1, s =>
    match parse_med_prec_expr fuel s with
    | Except.error e => Except.error e
    | Except.ok (tree, s1) => parse_low_loop fuel tree s1
termination_by structural fuel _ => fuel

end

/-- Fuel that is always sufficient: each parser level consumes at most 7 fuel
per grammar step and every `(`/`!`/operand consumes a token, so a generous
linear bound suffices. -/
def parseFuel (toks : List String) : Nat := 8 * toks.length + 8

/-- `Parser(toks)` followed by `Parser.parse()`: the initial lookahead is the
*lower-cased* first token; after the low-precedence parse, leftover tokens are
an error.  `Parser.__init__` on an empty token list raises `IndexError`
(`toks[0]`); the caller never does that. -/
def Parser.parse (toks : List String) : Except String PyVal :=
  match toks with
  | [] => Except.error "[IndexError] list index out of range"
  | t :: _ =>
    let s0 : ParserState := ⟨toks, 0, some (pyLower t)⟩
    match parse_low_prec_expr (parseFuel toks) s0 with
    | Except.error e => Except.error e
    | Except.ok (expr, s1) =>
      if s1.lookahead ≠ none then
        Except.error "[Error] Parser stopped (likely due to a missing junction)"
      else
        Except.ok expr

/-- The parsing phase of `main`: tokenize each line, skip empty token lists,
parse the rest in order; the first parse error aborts the whole run. -/
def parse_lines : List (List String) → Except String (List PyVal)
  | [] => Except.ok []
  | toks :: rest =>
    if toks.isEmpty then parse_lines rest
    else
      match Parser.parse toks with
      | Except.error e => Except.error e
      | Except.ok expr =>
        match parse_lines rest with
        | Except.error e => Except.error e
        | Except.ok exprs => Except.ok (expr :: exprs)

/-! ## Solving loop: `Solver.solve` -/

/-- The inner loop of `Solver.solve`: `is_true` stays `True` iff every
expression evaluates truthy (a `False` — or abnormal — evaluation breaks). -/
def all_exprs_true (vars : List String) (values : List Bool) : List PyVal → Bool
  | [] => true
  | e :: rest =>
    match solve_expr vars values e with
    | some true => all_exprs_true vars values rest
    | _ => false

/-- The outer loop of `Solver.solve`: run `steps` iterations starting from
`values`, recording each assignment vector under which all expressions are
true, advancing with `next_combination` after each check. -/
def solve_steps (vars : List String) (exprs : List PyVal) :
    Nat → List Bool → List (List Bool)
  | 0, _ => []
  | steps + 1, values =>
    let rest := solve_steps vars exprs steps (next_combination values)
    if all_exprs_true vars values exprs then values :: rest else rest

/-- `Solver.solve` end to end: build the sorted variable list, run `2 ^ n`
steps from the all-false vector; result is the ordered list of solution
vectors, the reported solution count, and the reported total `2 ^ n`. -/
def solver_solve (exprs : List PyVal) :
    Option (List (List Bool) × Nat × Nat) :=
  (solver_vars exprs).map fun vars =>
    let sols := solve_steps vars exprs (2 ^ vars.length)
      (List.replicate vars.length false)
    (sols, sols.length, 2 ^ vars.length)

/-- `main` on a list of input lines (file reading and flags aside): tokenize
and parse every line, then solve.  Any parse error aborts before any solving;
the impossible `TypeError` from `Solver.__init__` is also an error. -/
def run_main (lines : List String) :
    Except String (List (List Bool) × Nat × Nat) :=
  match parse_lines (lines.map tokenize_expr) with
  | Except.error e => Except.error e
  | Except.ok exprs =>
    match solver_solve exprs with
    | some res => Except.ok res
    | none => Except.error "[TypeError] unorderable types"

/-! ## Well-formed trees and leaf names (verification-side notions) -/

/-- The shape invariant of parser-produced trees: a `var` node holds a string
payload and no right child; a `!` node holds a well-formed left subtree and no
right child; a binary node holds two well-formed subtrees; no other tag
occurs. -/
def wf_tree : PyVal → Bool
  | PyVal.node l r ty =>
    if ty = "var" then (strVal l).isSome && (r = PyVal.pynone)
    else if ty = "!" then wf_tree l && (r = PyVal.pynone)
    else if ty = "&" || ty = "|" || ty = "^" || ty = "=" ||
        ty = "nand" || ty = "nor" || ty = ">" then
      wf_tree l && wf_tree r
    else false
  | _ => false

/-- The values `get_vars_expr` inserts, without the accumulator threading:
payloads of non-constant `var` leaves, in depth-first order (duplicates
possible). -/
def collected_leaves : PyVal → List PyVal
  | PyVal.node l r ty =>
    if ty = "var" && l ≠ PyVal.str "0" && l ≠ PyVal.str "1" then [l]
    else collected_leaves l ++ collected_leaves r
  | _ => []

/-- Spec-side description of the free variables of a tree: the names of its
leaves, excluding the constants `"0"` and `"1"`. -/
def leaf_names : PyVal → List String
  | PyVal.node l r ty =>
    if ty = "var" then
      match l with
      | PyVal.str nm => if nm = "0" || nm = "1" then [] else [nm]
      | _ => []
    else leaf_names l ++ leaf_names r
  | _ => []

/-! ## Lemmas about the enumeration (`_next_combination`) -/

theorem length_next_combination (v : List Bool) :
    (next_combination v).length = v.length := by
  induction v with
  | nil => rfl
  | cons b rest ih =>
    cases b <;> simp [next_combination, ih]

theorem vecToNat_lt (v : List Bool) : vecToNat v < 2 ^ v.length := by
  induction v with
  | nil => simp [vecToNat]
  | cons b rest ih =>
    cases b with
    | false =>
      show 0 + 2 * vecToNat rest < 2 ^ (rest.length + 1)
      rw [pow_succ]
      omega
    | true =>
      show 1 + 2 * vecToNat rest < 2 ^ (rest.length + 1)
      rw [pow_succ]
      omega

theorem vecToNat_next_combination (v : List Bool) :
    vecToNat (next_combination v) = (vecToNat v + 1) % 2 ^ v.length := by
  induction v with
  | nil => rfl
  | cons b rest ih =>
    cases b with
    | false =>
      have h := vecToNat_lt rest
      show 1 + 2 * vecToNat rest = (0 + 2 * vecToNat rest + 1) % 2 ^ (rest.length + 1)
      rw [Nat.mod_eq_of_lt (by rw [pow_succ]; omega)]
      omega
    | true =>
      show 0 + 2 * vecToNat (next_combination rest) =
        (1 + 2 * vecToNat rest + 1) % 2 ^ (rest.length + 1)
      rw [ih, Nat.zero_add,
        show 1 + 2 * vecToNat rest + 1 = 2 * (vecToNat rest + 1) by ring,
        show (2 : Nat) ^ (rest.length + 1) = 2 * 2 ^ rest.length by ring,
        Nat.mul_mod_mul_left]

theorem vecToNat_injective (v w : List Bool) (hlen : v.length = w.length)
    (h : vecToNat v = vecToNat w) : v = w := by
  induction v generalizing w with
  | nil =>
    cases w with
    | nil => rfl
    | cons c u => exact absurd hlen (by simp)
  | cons b rest ih =>
    cases w with
    | nil => exact absurd hlen (by simp)
    | cons c u =>
      simp only [List.length_cons, Nat.add_right_cancel_iff] at hlen
      simp only [vecToNat] at h
      cases b <;> cases c <;> simp at h
      · exact congrArg (List.cons false) (ih u hlen h)
      · exact absurd h (by omega)
      · exact absurd h (by omega)
      · exact congrArg (List.cons true) (ih u hlen h)

theorem vecToNat_surjective (n k : Nat) (hk : k < 2 ^ n) :
    ∃ v : List Bool, v.length = n ∧ vecToNat v = k := by
  induction n generalizing k with
  | zero =>
    refine ⟨[], rfl, ?_⟩
    simp only [pow_zero, Nat.lt_one_iff] at hk
    simp [vecToNat, hk]
  | succ m ih =>
    have hk2 : k / 2 < 2 ^ m := by
      rw [pow_succ] at hk
      omega
    obtain ⟨v, hvl, hvn⟩ := ih (k / 2) hk2
    refine ⟨(k % 2 == 1) :: v, by simp [hvl], ?_⟩
    rcases Nat.mod_two_eq_zero_or_one k with h | h <;>
      simp [vecToNat, hvn, h] <;> omega

theorem vecToNat_replicate_false (n : Nat) :
    vecToNat (List.replicate n false) = 0 := by
  induction n with
  | zero => rfl
  | succ m ih => simp [List.replicate_succ, vecToNat, ih]

theorem length_iterate_next_combination (k : Nat) (v : List Bool) :
    (next_combination^[k] v).length = v.length := by
  induction k generalizing v with
  | zero => rfl
  | succ m ih =>
    rw [Function.iterate_succ_apply, ih, length_next_combination]

theorem vecToNat_iterate (n k : Nat) :
    vecToNat (next_combination^[k] (List.replicate n false)) = k % 2 ^ n := by
  induction k with
  | zero => simp [vecToNat_replicate_false, Nat.zero_mod]
  | succ m ih =>
    rw [Function.iterate_succ_apply', vecToNat_next_combination,
      length_iterate_next_combination, List.length_replicate, ih,
      Nat.mod_add_mod]

/-! ## Claim C1 -/

/-- C1: starting from the all-false vector, iterating `_next_combination`
visits, in numeric order `0 .. 2 ^ n - 1` (vector read as an `n`-bit binary
number, head = bit 0 = first variable), exactly `2 ^ n` pairwise distinct
assignment vectors whose set is the full boolean hypercube of dimension `n`,
and after `2 ^ n` steps the vector is all-false again (so for `n = 0` exactly
the one empty assignment is visited). -/
theorem C1_enumeration_hypercube (n : Nat) :
    next_combination^[0] (List.replicate n false) = List.replicate n false ∧
    (∀ k, k < 2 ^ n →
      vecToNat (next_combination^[k] (List.replicate n false)) = k) ∧
    (∀ j k, j < 2 ^ n → k < 2 ^ n →
      next_combination^[j] (List.replicate n false) =
        next_combination^[k] (List.replicate n false) → j = k) ∧
    (∀ v : List Bool, v.length = n →
      ∃ k, k < 2 ^ n ∧ next_combination^[k] (List.replicate n false) = v) ∧
    next_combination^[2 ^ n] (List.replicate n false) = List.replicate n false := by
  refine ⟨rfl, ?_, ?_, ?_, ?_⟩
  · intro k hk
    rw [vecToNat_iterate, Nat.mod_eq_of_lt hk]
  · intro j k hj hk he
    have h := congrArg vecToNat he
    rw [vecToNat_iterate, vecToNat_iterate, Nat.mod_eq_of_lt hj,
      Nat.mod_eq_of_lt hk] at h
    exact h
  · intro v hv
    refine ⟨vecToNat v, ?_, ?_⟩
    · rw [← hv]
      exact vecToNat_lt v
    · apply vecToNat_injective
      · rw [length_iterate_next_combination, List.length_replicate, hv]
      · rw [vecToNat_iterate, Nat.mod_eq_of_lt (hv ▸ vecToNat_lt v)]
  · apply vecToNat_injective
    · rw [length_iterate_next_combination]
    · rw [vecToNat_iterate, Nat.mod_self, vecToNat_replicate_false]

/-- Witness for C1 at `n = 2`: the fourth visited vector reads as 3, and
`[true, true]` is reached within the first `2 ^ 2` steps. -/
theorem C1_enumeration_hypercube_witness :
    vecToNat (next_combination^[3] (List.replicate 2 false)) = 3 ∧
    (∃ k, k < 2 ^ 2 ∧ next_combination^[k] (List.replicate 2 false) = [true, true]) :=
  ⟨(C1_enumeration_hypercube 2).2.1 3 (by decide),
   (C1_enumeration_hypercube 2).2.2.2.1 [true, true] (by decide)⟩

/-! ## Unfolding lemmas for `solve_expr` -/

/-- A variable / constant leaf `Node(s, None, "var")`. -/
def varLeaf (s : String) : PyVal := PyVal.node (PyVal.str s) PyVal.pynone "var"

theorem solve_expr_node_eq (vars : List String) (values : List Bool)
    (l r : PyVal) (ty : String) :
    solve_expr vars values (PyVal.node l r ty) =
    (if ty = "var" then
      if l = PyVal.str "0" then some false
      else if l = PyVal.str "1" then some true
      else
        match l with
        | PyVal.str s =>
          match vars.indexOf? s with
          | some i => values.get? i
          | none => none
        | _ => none
    else if ty = "!" then
      (solve_expr vars values l).map (fun b => !b)
    else if ty = "&" then
      (solve_expr vars values l).bind fun a =>
        if a then solve_expr vars values r else some false
    else if ty = "|" then
      (solve_expr vars values l).bind fun a =>
        if a then some true else solve_expr vars values r
    else if ty = "^" then
      (solve_expr vars values l).bind fun a =>
        (solve_expr vars values r).map fun b => a != b
    else if ty = "=" then
      (solve_expr vars values l).bind fun a =>
        (solve_expr vars values r).map fun b => a == b
    else if ty = "nand" then
      (solve_expr vars values l).bind fun a =>
        if a then (solve_expr vars values r).map (fun b => !b) else some true
    else if ty = "nor" then
      (solve_expr vars values l).bind fun a =>
        if a then some false else (solve_expr vars values r).map (fun b => !b)
    else if ty = ">" then
      (solve_expr vars values l).bind fun a =>
        if a then solve_expr vars values r else some true
    else none) := rfl

theorem solve_expr_const0 (vars : List String) (values : List Bool) (x : PyVal) :
    solve_expr vars values (PyVal.node (PyVal.str "0") x "var") = some false := by
  rw [solve_expr_node_eq]
  simp

theorem solve_expr_const1 (vars : List String) (values : List Bool) (x : PyVal) :
    solve_expr vars values (PyVal.node (PyVal.str "1") x "var") = some true := by
  rw [solve_expr_node_eq]
  simp

theorem solve_expr_var_lookup (vars : List String) (values : List Bool)
    (s : String) (i : Nat) (h0 : s ≠ "0") (h1 : s ≠ "1")
    (hidx : vars.indexOf? s = some i) :
    solve_expr vars values (varLeaf s) = values.get? i := by
  rw [varLeaf, solve_expr_node_eq]
  simp [h0, h1, hidx]

theorem solve_expr_var_eq (vars : List String) (values : List Bool)
    (s : String) (h0 : s ≠ "0") (h1 : s ≠ "1") :
    solve_expr vars values (varLeaf s) =
      (match vars.indexOf? s with
       | some i => values.get? i
       | none => none) := by
  rw [varLeaf, solve_expr_node_eq]
  simp [h0, h1]

theorem solve_expr_not (vars : List String) (values : List Bool) (l r : PyVal) :
    solve_expr vars values (PyVal.node l r "!") =
      (solve_expr vars values l).map (fun b => !b) := by
  rw [solve_expr_node_eq]
  simp

theorem solve_expr_and (vars : List String) (values : List Bool) (l r : PyVal) :
    solve_expr vars values (PyVal.node l r "&") =
      (solve_expr vars values l).bind fun a =>
        if a then solve_expr vars values r else some false := by
  rw [solve_expr_node_eq]
  simp

theorem solve_expr_or (vars : List String) (values : List Bool) (l r : PyVal) :
    solve_expr vars values (PyVal.node l r "|") =
      (solve_expr vars values l).bind fun a =>
        if a then some true else solve_expr vars values r := by
  rw [solve_expr_node_eq]
  simp

theorem solve_expr_xor (vars : List String) (values : List Bool) (l r : PyVal) :
    solve_expr vars values (PyVal.node l r "^") =
      (solve_expr vars values l).bind fun a =>
        (solve_expr vars values r).map fun b => a != b := by
  rw [solve_expr_node_eq]
  simp

theorem solve_expr_iff (vars : List String) (values : List Bool) (l r : PyVal) :
    solve_expr vars values (PyVal.node l r "=") =
      (solve_expr vars values l).bind fun a =>
        (solve_expr vars values r).map fun b => a == b := by
  rw [solve_expr_node_eq]
  simp

theorem solve_expr_nand (vars : List String) (values : List Bool) (l r : PyVal) :
    solve_expr vars values (PyVal.node l r "nand") =
      (solve_expr vars values l).bind fun a =>
        if a then (solve_expr vars values r).map (fun b => !b) else some true := by
  rw [solve_expr_node_eq]
  simp

theorem solve_expr_nor (vars : List String) (values : List Bool) (l r : PyVal) :
    solve_expr vars values (PyVal.node l r "nor") =
      (solve_expr vars values l).bind fun a =>
        if a then some false else (solve_expr vars values r).map (fun b => !b) := by
  rw [solve_expr_node_eq]
  simp

theorem solve_expr_imp (vars : List String) (values : List Bool) (l r : PyVal) :
    solve_expr vars values (PyVal.node l r ">") =
      (solve_expr vars values l).bind fun a =>
        if a then solve_expr vars values r else some true := by
  rw [solve_expr_node_eq]
  simp

/-! ## Claim C2 -/

/-- C2: the recursive evaluator follows the operator table: a leaf `"0"`
evaluates to `false` and `"1"` to `true` regardless of the assignment, any
other leaf to its assigned value, and with `L`/`R` the evaluations of the
children, `!` gives `!L`, `&` gives `L && R`, `|` gives `L || R`, `^` gives
`L != R`, `=` gives `L == R`, `nand` gives `!(L && R)`, `nor` gives
`!(L || R)` and `>` gives `!L || R`. -/
theorem C2_solve_expr_operator_table (vars : List String) (values : List Bool) :
    (∀ x, solve_expr vars values (PyVal.node (PyVal.str "0") x "var") = some false) ∧
    (∀ x, solve_expr vars values (PyVal.node (PyVal.str "1") x "var") = some true) ∧
    (∀ s i, s ≠ "0" → s ≠ "1" → vars.indexOf? s = some i →
      solve_expr vars values (varLeaf s) = values.get? i) ∧
    (∀ l r a, solve_expr vars values l = some a →
      solve_expr vars values (PyVal.node l r "!") = some (!a)) ∧
    (∀ l r a b, solve_expr vars values l = some a →
      solve_expr vars values r = some b →
      solve_expr vars values (PyVal.node l r "&") = some (a && b)) ∧
    (∀ l r a b, solve_expr vars values l = some a →
      solve_expr vars values r = some b →
      solve_expr vars values (PyVal.node l r "|") = some (a || b)) ∧
    (∀ l r a b, solve_expr vars values l = some a →
      solve_expr vars values r = some b →
      solve_expr vars values (PyVal.node l r "^") = some (a != b)) ∧
    (∀ l r a b, solve_expr vars values l = some a →
      solve_expr vars values r = some b →
      solve_expr vars values (PyVal.node l r "=") = some (a == b)) ∧
    (∀ l r a b, solve_expr vars values l = some a →
      solve_expr vars values r = some b →
      solve_expr vars values (PyVal.node l r "nand") = some (!(a && b))) ∧
    (∀ l r a b, solve_expr vars values l = some a →
      solve_expr vars values r = some b →
      solve_expr vars values (PyVal.node l r "nor") = some (!(a || b))) ∧
    (∀ l r a b, solve_expr vars values l = some a →
      solve_expr vars values r = some b →
      solve_expr vars values (PyVal.node l r ">") = some (!a || b)) := by
  refine ⟨solve_expr_const0 vars values, solve_expr_const1 vars values,
    ?_, ?_, ?_, ?_, ?_, ?_, ?_, ?_, ?_⟩
  · intro s i h0 h1 hidx
    exact solve_expr_var_lookup vars values s i h0 h1 hidx
  · intro l r a hl
    simp [solve_expr_not, hl]
  · intro l r a b hl hr
    cases a <;> simp [solve_expr_and, hl, hr]
  · intro l r a b hl hr
    cases a <;> simp [solve_expr_or, hl, hr]
  · intro l r a b hl hr
    simp [solve_expr_xor, hl, hr]
  · intro l r a b hl hr
    simp [solve_expr_iff, hl, hr]
  · intro l r a b hl hr
    cases a <;> simp [solve_expr_nand, hl, hr]
  · intro l r a b hl hr
    cases a <;> simp [solve_expr_nor, hl, hr]
  · intro l r a b hl hr
    cases a <;> simp [solve_expr_imp, hl, hr]

/-- Witness for C2: `x & 0` under `x := true` evaluates to `true && false`. -/
theorem C2_solve_expr_operator_table_witness :
    solve_expr ["x"] [true] (PyVal.node (varLeaf "x") (varLeaf "0") "&") =
      some (true && false) :=
  (C2_solve_expr_operator_table ["x"] [true]).2.2.2.2.1 (varLeaf "x")
    (varLeaf "0") true false (by decide) (by decide)

/-! ## Claim C3 -/

theorem all_exprs_true_iff (vars : List String) (values : List Bool)
    (exprs : List PyVal) :
    all_exprs_true vars values exprs = true ↔
      ∀ e ∈ exprs, solve_expr vars values e = some true := by
  induction exprs with
  | nil => simp [all_exprs_true]
  | cons e rest ih =>
    simp only [all_exprs_true, List.forall_mem_cons]
    rcases h : solve_expr vars values e with _ | b
    · simp [h]
    · cases b <;> simp [h, ih]

theorem solve_steps_eq_filter (vars : List String) (exprs : List PyVal)
    (steps : Nat) (start : List Bool) :
    solve_steps vars exprs steps start =
      ((List.range steps).map (fun k => next_combination^[k] start)).filter
        (fun v => all_exprs_true vars v exprs) := by
  induction steps generalizing start with
  | zero => simp [solve_steps]
  | succ k ih =>
    have hcomp : ∀ j, next_combination^[j + 1] start =
        next_combination^[j] (next_combination start) := fun j =>
      Function.iterate_succ_apply next_combination j start
    rw [List.range_succ_eq_map, List.map_cons, List.map_map, List.filter_cons]
    simp only [Function.comp_def, Nat.succ_eq_add_one, hcomp,
      Function.iterate_zero_apply]
    rw [← ih (next_combination start)]
    simp only [solve_steps]

/-- C3: an enumerated assignment is reported as a solution iff every tree in
the expression set evaluates to `some true` under it (the inner loop breaks at
the first non-true tree); the reported list is the enumeration filtered by
that test; and the single input line `"a ^ b"` yields exactly the solutions
`a=true,b=false` and `a=false,b=true`, with the summary `2` out of `2 ^ 2`. -/
theorem C3_solutions_iff_all_true :
    (∀ (vars : List String) (values : List Bool) (exprs : List PyVal),
      all_exprs_true vars values exprs = true ↔
        ∀ e ∈ exprs, solve_expr vars values e = some true) ∧
    (∀ (vars : List String) (exprs : List PyVal) (steps : Nat) (start : List Bool),
      solve_steps vars exprs steps start =
        ((List.range steps).map (fun k => next_combination^[k] start)).filter
          (fun v => all_exprs_true vars v exprs)) ∧
    run_main ["a ^ b"] = Except.ok ([[true, false], [false, true]], 2, 2 ^ 2) :=
  ⟨all_exprs_true_iff, solve_steps_eq_filter, by decide⟩

/-- Witness for C3: under `a=true, b=false` the single tree of `"a ^ b"`
evaluates to `some true`, so the inner loop reports a solution. -/
theorem C3_solutions_iff_all_true_witness :
    all_exprs_true ["a", "b"] [true, false]
      [PyVal.node (varLeaf "a") (varLeaf "b") "^"] = true :=
  (C3_solutions_iff_all_true.1 ["a", "b"] [true, false]
    [PyVal.node (varLeaf "a") (varLeaf "b") "^"]).mpr (by decide)

/-! ## Claim C4 -/

/-- C4: the parser honors the four precedence tiers with left-associative
binary operators and tightest-binding unary `!`: `"a & b | c"` parses to
`(a & b) | c`, `"!a & b"` parses to `(!a) & b`, and `"a | b = c ^ d"` parses
to `(a | b) = (c ^ d)`. -/
theorem C4_precedence :
    Parser.parse (tokenize_expr "a & b | c") =
      Except.ok (PyVal.node (PyVal.node (varLeaf "a") (varLeaf "b") "&")
        (varLeaf "c") "|") ∧
    Parser.parse (tokenize_expr "!a & b") =
      Except.ok (PyVal.node (PyVal.node (varLeaf "a") PyVal.pynone "!")
        (varLeaf "b") "&") ∧
    Parser.parse (tokenize_expr "a | b = c ^ d") =
      Except.ok (PyVal.node (PyVal.node (varLeaf "a") (varLeaf "b") "|")
        (PyVal.node (varLeaf "c") (varLeaf "d") "^") "=") := by
  refine ⟨by decide, by decide, by decide⟩

/-! ## Claim C5 -/

/-- C5: malformed input is a fatal syntax error, never a partial or silently
wrong tree: `"a &"` and `"(a & b"` each produce a parse error, leftover
unconsumed tokens (`"a b"`) produce a parse error, any failing line makes the
whole parsing phase fail, and a failed parsing phase makes the whole run fail
(no solving happens). -/
theorem C5_malformed_input_fatal :
    Parser.parse (tokenize_expr "a &") =
      Except.error "[Error] Expected primary expression but got None" ∧
    Parser.parse (tokenize_expr "(a & b") =
      Except.error "[Error] Expected ')' but got None instead" ∧
    Parser.parse (tokenize_expr "a b") =
      Except.error "[Error] Parser stopped (likely due to a missing junction)" ∧
    (∀ (ls : List (List String)) (toks : List String) (msg : String),
      toks ∈ ls → toks.isEmpty = false → Parser.parse toks = Except.error msg →
      ∃ msg2, parse_lines ls = Except.error msg2) ∧
    (∀ (lines : List String) (msg : String),
      parse_lines (lines.map tokenize_expr) = Except.error msg →
      run_main lines = Except.error msg) := by
  refine ⟨by decide, by decide, by decide, ?_, ?_⟩
  · intro ls toks msg hmem hne herr
    induction ls with
    | nil => cases hmem
    | cons a as ih =>
      rcases List.mem_cons.mp hmem with rfl | hmem2
      · exact ⟨msg, by simp [parse_lines, hne, herr]⟩
      · obtain ⟨m2, hm2⟩ := ih hmem2
        by_cases ha : a.isEmpty
        · exact ⟨m2, by simp [parse_lines, ha, hm2]⟩
        · rcases hp : Parser.parse a with e | expr
          · exact ⟨e, by simp [parse_lines, ha, hp]⟩
          · exact ⟨m2, by simp [parse_lines, ha, hp, hm2]⟩
  · intro lines msg h
    simp [run_main, h]

/-- Witness for C5: the lone line `"a &"` makes the parsing phase fail. -/
theorem C5_malformed_input_fatal_witness :
    ∃ msg2, parse_lines [["a", "&"]] = Except.error msg2 :=
  C5_malformed_input_fatal.2.2.2.1 [["a", "&"]] ["a", "&"]
    "[Error] Expected primary expression but got None"
    (by decide) (by decide) (by decide)

/-! ## Claim C6 (corrected) -/

/-- C6 counterexample: contrary to the claim, `"a NAND b"` does *not* parse to
the same tree as `"a nand b"`; it is a parse error, because only the initial
lookahead token is lower-cased. -/
theorem C6_counterexample_nand_case :
    Parser.parse (tokenize_expr "a NAND b") ≠
      Parser.parse (tokenize_expr "a nand b") ∧
    Parser.parse (tokenize_expr "a NAND b") =
      Except.error "[Error] Parser stopped (likely due to a missing junction)" := by
  refine ⟨by decide, by decide⟩

/-- C6 amended: `nor`/`nand` are recognized as operators only in exact
lowercase: only `Parser.__init__` lower-cases (the initial lookahead), the
operator loops compare the raw lookahead against the literal tokens
`"|"`, `"nor"`, `"nand"`, `">"`, so `"a nand b"` / `"a nor b"` parse while
`"a NAND b"` / `"a NOR b"` are fatal syntax errors. -/
theorem C6_keyword_exact_lowercase :
    Parser.parse (tokenize_expr "a nand b") =
      Except.ok (PyVal.node (varLeaf "a") (varLeaf "b") "nand") ∧
    Parser.parse (tokenize_expr "a nor b") =
      Except.ok (PyVal.node (varLeaf "a") (varLeaf "b") "nor") ∧
    Parser.parse (tokenize_expr "a NAND b") =
      Except.error "[Error] Parser stopped (likely due to a missing junction)" ∧
    Parser.parse (tokenize_expr "a NOR b") =
      Except.error "[Error] Parser stopped (likely due to a missing junction)" ∧
    (∀ (fuel : Nat) (tree : PyVal) (s : ParserState),
      s.lookahead ≠ some "|" → s.lookahead ≠ some "nor" →
      s.lookahead ≠ some "nand" → s.lookahead ≠ some ">" →
      parse_med_loop (fuel + 1) tree s = Except.ok (tree, s)) := by
  refine ⟨by decide, by decide, by decide, by decide, ?_⟩
  intro fuel tree s h1 h2 h3 h4
  simp only [parse_med_loop]
  rw [if_neg]
  push_neg
  exact ⟨h1, h2, h3, h4⟩

/-- Witness for C6 (amended): with raw lookahead `"NAND"` the medium-tier
loop does not treat it as an operator and returns the tree unchanged. -/
theorem C6_keyword_exact_lowercase_witness :
    parse_med_loop 1 (varLeaf "a") ⟨["a", "NAND", "b"], 1, some "NAND"⟩ =
      Except.ok (varLeaf "a", ⟨["a", "NAND", "b"], 1, some "NAND"⟩) :=
  C6_keyword_exact_lowercase.2.2.2.2 0 (varLeaf "a")
    ⟨["a", "NAND", "b"], 1, some "NAND"⟩
    (by decide) (by decide) (by decide) (by decide)

/-! ## Claim C7 (corrected) -/

/-- C7 counterexample: contrary to the claim, a punctuation token such as
`")"` in operand position is *not* rejected: it is accepted as a variable
leaf, because only the reserved operator tokens and end of input are refused
there. -/
theorem C7_counterexample_rparen_var :
    Parser.parse [")"] = Except.ok (varLeaf ")") := by decide

/-- C7 amended: in operand (primary) position, a token is accepted as a
leaf precisely when it is not a reserved operator symbol/keyword and not end
of input; every non-reserved token — including punctuation such as `")"` or
`","` — is consumed as a variable leaf, while reserved keywords and end of
input are syntax errors. -/
theorem C7_primary_token_acceptance :
    (∀ (fuel : Nat) (s : ParserState) (t : String),
      s.lookahead = some t → is_keyword (some t) = false → t ≠ "(" →
      parse_primary_expr (fuel + 1) s =
        (match consume t s with
         | Except.error e => Except.error e
         | Except.ok (c, s1) => Except.ok (varLeaf c, s1))) ∧
    (∀ (fuel : Nat) (s : ParserState) (t : String),
      s.lookahead = some t → is_keyword (some t) = true → t ≠ "!" →
      ∃ msg, parse_primary_expr (fuel + 1) s = Except.error msg) ∧
    (∀ (fuel : Nat) (s : ParserState),
      s.lookahead = none →
      parse_primary_expr (fuel + 1) s =
        Except.error "[Error] Expected primary expression but got None") ∧
    Parser.parse [")"] = Except.ok (varLeaf ")") := by
  refine ⟨?_, ?_, ?_, by decide⟩
  · intro fuel s t hs hk hp
    have hbang : t ≠ "!" := by
      intro h
      rw [h] at hk
      simp [is_keyword] at hk
    simp only [parse_primary_expr, hs]
    rw [if_neg (by simp [hbang]), if_neg (by simp [hp]),
      if_pos (by simp [hk])]
    rfl
  · intro fuel s t hs hk hbang
    have hp : t ≠ "(" := by
      intro h
      rw [h] at hk
      simp [is_keyword] at hk
    refine ⟨"[Error] Expected primary expression but got " ++ t, ?_⟩
    simp only [parse_primary_expr, hs]
    rw [if_neg (by simp [hbang]), if_neg (by simp [hp]),
      if_neg (by simp [hk])]
    rfl
  · intro fuel s hs
    simp only [parse_primary_expr, hs]
    rfl

/-- Witness for C7 (amended): the token `","` in operand position is consumed
as a variable leaf. -/
theorem C7_primary_token_acceptance_witness :
    parse_primary_expr 1 ⟨[","], 0, some ","⟩ =
      (match consume "," (⟨[","], 0, some ","⟩ : ParserState) with
       | Except.error e => Except.error e
       | Except.ok (c, s1) => Except.ok (varLeaf c, s1)) :=
  C7_primary_token_acceptance.1 0 ⟨[","], 0, some ","⟩ ","
    rfl (by decide) (by decide)

/-! ## Claim C8 -/

theorem mem_setAdd (acc : List PyVal) (v w : PyVal) :
    w ∈ setAdd acc v ↔ w ∈ acc ∨ w = v := by
  by_cases h : v ∈ acc
  · simp only [setAdd, if_pos h]
    constructor
    · exact Or.inl
    · rintro (hw | rfl)
      · exact hw
      · exact h
  · simp [setAdd, if_neg h]

theorem nodup_setAdd (acc : List PyVal) (v : PyVal) (h : acc.Nodup) :
    (setAdd acc v).Nodup := by
  by_cases hm : v ∈ acc
  · simpa [setAdd, hm] using h
  · rw [setAdd, if_neg hm]
    refine List.Nodup.append h (List.nodup_singleton v) ?_
    intro a ha hb
    rw [List.mem_singleton] at hb
    exact hm (hb ▸ ha)

theorem mem_get_vars_expr (e : PyVal) : ∀ (acc : List PyVal) (w : PyVal),
    w ∈ get_vars_expr e acc ↔ w ∈ acc ∨ w ∈ collected_leaves e := by
  induction e with
  | node l r ty ihl ihr =>
    intro acc w
    simp only [get_vars_expr, collected_leaves]
    by_cases hc : (ty = "var" && l ≠ PyVal.str "0" && l ≠ PyVal.str "1") = true
    · rw [if_pos hc, if_pos hc, mem_setAdd]
      simp
    · rw [if_neg hc, if_neg hc, ihr, ihl, List.mem_append]
      tauto
  | str nm =>
    intro acc w
    simp [get_vars_expr, collected_leaves]
  | pynone =>
    intro acc w
    simp [get_vars_expr, collected_leaves]

theorem nodup_get_vars_expr (e : PyVal) : ∀ acc : List PyVal,
    acc.Nodup → (get_vars_expr e acc).Nodup := by
  induction e with
  | node l r ty ihl ihr =>
    intro acc hacc
    simp only [get_vars_expr]
    by_cases hc : (ty = "var" && l ≠ PyVal.str "0" && l ≠ PyVal.str "1") = true
    · rw [if_pos hc]
      exact nodup_setAdd acc l hacc
    · rw [if_neg hc]
      exact ihr _ (ihl _ hacc)
  | str nm =>
    intro acc hacc
    simpa [get_vars_expr] using hacc
  | pynone =>
    intro acc hacc
    simpa [get_vars_expr] using hacc

theorem mem_get_vars_foldl (exprs : List PyVal) : ∀ (acc : List PyVal) (w : PyVal),
    w ∈ exprs.foldl (fun a e => get_vars_expr e a) acc ↔
      w ∈ acc ∨ ∃ e ∈ exprs, w ∈ collected_leaves e := by
  induction exprs with
  | nil => simp
  | cons e rest ih =>
    intro acc w
    simp only [List.foldl_cons]
    rw [ih, mem_get_vars_expr]
    simp only [List.mem_cons]
    constructor
    · rintro ((hw | hw) | ⟨e2, he2, hw⟩)
      · exact Or.inl hw
      · exact Or.inr ⟨e, Or.inl rfl, hw⟩
      · exact Or.inr ⟨e2, Or.inr he2, hw⟩
    · rintro (hw | ⟨e2, (rfl | he2), hw⟩)
      · exact Or.inl (Or.inl hw)
      · exact Or.inl (Or.inr hw)
      · exact Or.inr ⟨e2, he2, hw⟩

theorem mem_get_vars_expr_list (exprs : List PyVal) (w : PyVal) :
    w ∈ get_vars_expr_list exprs ↔ ∃ e ∈ exprs, w ∈ collected_leaves e := by
  rw [get_vars_expr_list, mem_get_vars_foldl]
  simp

theorem nodup_get_vars_expr_list (exprs : List PyVal) :
    (get_vars_expr_list exprs).Nodup := by
  rw [get_vars_expr_list]
  have h : ∀ (acc : List PyVal), acc.Nodup →
      (exprs.foldl (fun a e => get_vars_expr e a) acc).Nodup := by
    induction exprs with
    | nil => intro acc hacc; simpa using hacc
    | cons e rest ih =>
      intro acc hacc
      simp only [List.foldl_cons]
      exact ih _ (nodup_get_vars_expr e acc hacc)
  exact h [] List.nodup_nil

theorem collected_leaves_eq_map (e : PyVal) (h : wf_tree e = true) :
    collected_leaves e = (leaf_names e).map PyVal.str := by
  induction e with
  | node l r ty ihl ihr =>
    simp only [wf_tree] at h
    by_cases hv : ty = "var"
    · rw [if_pos hv] at h
      obtain ⟨hstr, hr⟩ := Bool.and_eq_true_iff.mp h
      have hrn : r = PyVal.pynone := by simpa using hr
      match l, hstr with
      | PyVal.str nm, _ =>
        simp only [collected_leaves, leaf_names, if_pos hv, hv, hrn]
        by_cases h0 : nm = "0"
        · simp [h0, collected_leaves]
        · by_cases h1 : nm = "1"
          · simp [h1, collected_leaves]
          · simp [h0, h1]
    · rw [if_neg hv] at h
      by_cases hb : ty = "!"
      · rw [if_pos hb] at h
        obtain ⟨hl, hr⟩ := Bool.and_eq_true_iff.mp h
        have hrn : r = PyVal.pynone := by simpa using hr
        simp only [collected_leaves, leaf_names]
        rw [if_neg (by simp [hv]), if_neg hv, ihl hl, hrn]
        simp [collected_leaves, leaf_names]
      · rw [if_neg hb] at h
        by_cases hbin : (ty = "&" || ty = "|" || ty = "^" || ty = "=" ||
            ty = "nand" || ty = "nor" || ty = ">") = true
        · rw [if_pos hbin] at h
          obtain ⟨hl, hr⟩ := Bool.and_eq_true_iff.mp h
          simp only [collected_leaves, leaf_names]
          rw [if_neg (by simp [hv]), if_neg hv, ihl hl, ihr hr, List.map_append]
        · rw [if_neg hbin] at h
          cases h
  | str nm => simp [wf_tree] at h
  | pynone => simp [wf_tree] at h

theorem insertionSort_strLeDec (l : List String) :
    @List.insertionSort String (· ≤ ·) strLeDec l =
      List.insertionSort (· ≤ ·) l :=
  congrArg (fun inst => @List.insertionSort String (· ≤ ·) inst l)
    (Subsingleton.elim strLeDec _)

/-- C8: for a set of well-formed expression trees, the variable collector
produces exactly the sorted-ascending, duplicate-free sequence of the leaf
names occurring in the trees, excluding the constants `"0"` and `"1"`; being
a pure function of the expression set, it is deterministic. -/
theorem C8_variable_collector (exprs : List PyVal)
    (hwf : ∀ e ∈ exprs, wf_tree e = true) :
    ∃ vs, solver_vars exprs = some vs ∧
      vs.Sorted (· ≤ ·) ∧ vs.Nodup ∧
      (∀ nm, nm ∈ vs ↔ ∃ e ∈ exprs, nm ∈ leaf_names e) ∧
      (∀ vs2, solver_vars exprs = some vs2 → vs2 = vs) := by
  have hall : (get_vars_expr_list exprs).all (fun v => (strVal v).isSome) = true := by
    rw [List.all_eq_true]
    intro v hv
    rw [mem_get_vars_expr_list] at hv
    obtain ⟨e, he, hv2⟩ := hv
    rw [collected_leaves_eq_map e (hwf e he)] at hv2
    obtain ⟨nm, _, rfl⟩ := List.mem_map.mp hv2
    rfl
  have hsv : solver_vars exprs = some (@List.insertionSort String (· ≤ ·)
      strLeDec ((get_vars_expr_list exprs).filterMap strVal)) := by
    simp only [solver_vars]
    rw [if_pos hall]
  refine ⟨_, hsv, ?_, ?_, ?_, ?_⟩
  · rw [insertionSort_strLeDec]
    exact List.sorted_insertionSort (· ≤ ·) _
  · rw [insertionSort_strLeDec]
    refine List.Perm.nodup (List.perm_insertionSort (· ≤ ·) _).symm ?_
    refine List.Nodup.filterMap ?_ (nodup_get_vars_expr_list exprs)
    intro a b nm ha hb
    cases a <;> simp only [strVal, Option.mem_def,
      reduceCtorEq, Option.some.injEq] at ha
    cases b <;> simp only [strVal, Option.mem_def,
      reduceCtorEq, Option.some.injEq] at hb
    rw [ha, hb]
  · intro nm
    rw [insertionSort_strLeDec, List.mem_insertionSort]
    constructor
    · intro hmem
      obtain ⟨v, hv, hsvv⟩ := List.mem_filterMap.mp hmem
      rw [mem_get_vars_expr_list] at hv
      obtain ⟨e, he, hv2⟩ := hv
      refine ⟨e, he, ?_⟩
      rw [collected_leaves_eq_map e (hwf e he)] at hv2
      obtain ⟨nm2, hnm2, heq⟩ := List.mem_map.mp hv2
      cases heq
      simp only [strVal, Option.some.injEq] at hsvv
      rw [← hsvv]
      exact hnm2
    · rintro ⟨e, he, hnm⟩
      refine List.mem_filterMap.mpr ⟨PyVal.str nm, ?_, rfl⟩
      rw [mem_get_vars_expr_list]
      refine ⟨e, he, ?_⟩
      rw [collected_leaves_eq_map e (hwf e he)]
      exact List.mem_map_of_mem _ hnm
  · intro vs2 h2
    rw [hsv] at h2
    exact (Option.some.inj h2).symm

/-- Witness for C8 on the single tree of `"b ^ a"`: the collector yields
exactly `["a", "b"]`. -/
theorem C8_variable_collector_witness :
    ∃ vs, solver_vars [PyVal.node (varLeaf "b") (varLeaf "a") "^"] = some vs ∧
      vs.Sorted (· ≤ ·) ∧ vs.Nodup ∧
      (∀ nm, nm ∈ vs ↔ ∃ e ∈ [PyVal.node (varLeaf "b") (varLeaf "a") "^"],
        nm ∈ leaf_names e) ∧
      (∀ vs2, solver_vars [PyVal.node (varLeaf "b") (varLeaf "a") "^"] =
        some vs2 → vs2 = vs) :=
  C8_variable_collector [PyVal.node (varLeaf "b") (varLeaf "a") "^"]
    (by decide)

theorem parse_wf_all : ∀ fuel : Nat,
    (∀ s t s2, parse_primary_expr fuel s = Except.ok (t, s2) → wf_tree t = true) ∧
    (∀ tree s t s2, parse_high_loop fuel tree s = Except.ok (t, s2) →
      wf_tree tree = true → wf_tree t = true) ∧
    (∀ s t s2, parse_high_prec_expr fuel s = Except.ok (t, s2) → wf_tree t = true) ∧
    (∀ tree s t s2, parse_med_loop fuel tree s = Except.ok (t, s2) →
      wf_tree tree = true → wf_tree t = true) ∧
    (∀ s t s2, parse_med_prec_expr fuel s = Except.ok (t, s2) → wf_tree t = true) ∧
    (∀ tree s t s2, parse_low_loop fuel tree s = Except.ok (t, s2) →
      wf_tree tree = true → wf_tree t = true) ∧
    (∀ s t s2, parse_low_prec_expr fuel s = Except.ok (t, s2) → wf_tree t = true) := by
  intro fuel
  induction fuel with
  | zero =>
    exact ⟨fun s t s2 h => Except.noConfusion h,
      fun tr s t s2 h => Except.noConfusion h,
      fun s t s2 h => Except.noConfusion h,
      fun tr s t s2 h => Except.noConfusion h,
      fun s t s2 h => Except.noConfusion h,
      fun tr s t s2 h => Except.noConfusion h,
      fun s t s2 h => Except.noConfusion h⟩
  | succ f ih =>
    obtain ⟨ihP, ihHL, ihH, ihML, ihM, ihLL, ihL⟩ := ih
    refine ⟨?_, ?_, ?_, ?_, ?_, ?_, ?_⟩
    · intro s t s2 h
      simp only [parse_primary_expr] at h
      by_cases h1 : s.lookahead = some "!"
      · rw [if_pos h1] at h
        rcases hc : consume "!" s with e | ⟨c, s1⟩ <;> rw [hc] at h
        · exact Except.noConfusion h
        dsimp only at h
        rcases hp : parse_primary_expr f s1 with e | ⟨child, s2x⟩ <;> rw [hp] at h
        · exact Except.noConfusion h
        dsimp only at h
        cases h
        have hw := ihP _ _ _ hp
        simp [wf_tree, hw]
      · rw [if_neg h1] at h
        by_cases h2 : s.lookahead = some "("
        · rw [if_pos h2] at h
          rcases hc : consume "(" s with e | ⟨c, s1⟩ <;> rw [hc] at h
          · exact Except.noConfusion h
          dsimp only at h
          rcases hp : parse_low_prec_expr f s1 with e | ⟨expr, s2x⟩ <;> rw [hp] at h
          · exact Except.noConfusion h
          dsimp only at h
          rcases hc2 : consume ")" s2x with e | ⟨c2, s3⟩ <;> rw [hc2] at h
          · exact Except.noConfusion h
          dsimp only at h
          cases h
          exact ihL _ _ _ hp
        · rw [if_neg h2] at h
          by_cases h3 : ¬ is_keyword s.lookahead = true
          · rw [if_pos h3] at h
            rcases hc : consume (s.lookahead.getD "") s with e | ⟨c, s1⟩ <;>
              rw [hc] at h
            · exact Except.noConfusion h
            dsimp only at h
            cases h
            simp [wf_tree, strVal]
          · rw [if_neg h3] at h
            exact Except.noConfusion h
    · intro tree s t s2 h htree
      simp only [parse_high_loop] at h
      by_cases hcond : s.lookahead = some "&" ∨ s.lookahead = some "^"
      · rw [if_pos hcond] at h
        rcases hc : consume (s.lookahead.getD "") s with e | ⟨c, s1⟩ <;>
          rw [hc] at h
        · exact Except.noConfusion h
        dsimp only at h
        rcases hp : parse_primary_expr f s1 with e | ⟨rhs, s2x⟩ <;> rw [hp] at h
        · exact Except.noConfusion h
        dsimp only at h
        refine ihHL _ _ _ _ h ?_
        have hw := ihP _ _ _ hp
        rcases hcond with h1 | h1 <;> rw [h1] <;> simp [wf_tree, htree, hw]
      · rw [if_neg hcond] at h
        cases h
        exact htree
    · intro s t s2 h
      simp only [parse_high_prec_expr] at h
      rcases hp : parse_primary_expr f s with e | ⟨tr, s1⟩ <;> rw [hp] at h
      · exact Except.noConfusion h
      dsimp only at h
      exact ihHL _ _ _ _ h (ihP _ _ _ hp)
    · intro tree s t s2 h htree
      simp only [parse_med_loop] at h
      by_cases hcond : s.lookahead = some "|" ∨ s.lookahead = some "nor" ∨
          s.lookahead = some "nand" ∨ s.lookahead = some ">"
      · rw [if_pos hcond] at h
        rcases hc : consume (s.lookahead.getD "") s with e | ⟨c, s1⟩ <;>
          rw [hc] at h
        · exact Except.noConfusion h
        dsimp only at h
        rcases hp : parse_high_prec_expr f s1 with e | ⟨rhs, s2x⟩ <;> rw [hp] at h
        · exact Except.noConfusion h
        dsimp only at h
        refine ihML _ _ _ _ h ?_
        have hw := ihH _ _ _ hp
        rcases hcond with h1 | h1 | h1 | h1 <;> rw [h1] <;>
          simp [wf_tree, htree, hw]
      · rw [if_neg hcond] at h
        cases h
        exact htree
    · intro s t s2 h
      simp only [parse_med_prec_expr] at h
      rcases hp : parse_high_prec_expr f s with e | ⟨tr, s1⟩ <;> rw [hp] at h
      · exact Except.noConfusion h
      dsimp only at h
      exact ihML _ _ _ _ h (ihH _ _ _ hp)
    · intro tree s t s2 h htree
      simp only [parse_low_loop] at h
      by_cases hcond : s.lookahead = some "="
      · rw [if_pos hcond] at h
        rcases hc : consume "=" s with e | ⟨c, s1⟩ <;> rw [hc] at h
        · exact Except.noConfusion h
        dsimp only at h
        rcases hp : parse_med_prec_expr f s1 with e | ⟨rhs, s2x⟩ <;> rw [hp] at h
        · exact Except.noConfusion h
        dsimp only at h
        refine ihLL _ _ _ _ h ?_
        have hw := ihM _ _ _ hp
        simp [wf_tree, htree, hw]
      · rw [if_neg hcond] at h
        cases h
        exact htree
    · intro s t s2 h
      simp only [parse_low_prec_expr] at h
      rcases hp : parse_med_prec_expr f s with e | ⟨tr, s1⟩ <;> rw [hp] at h
      · exact Except.noConfusion h
      dsimp only at h
      exact ihLL _ _ _ _ h (ihM _ _ _ hp)

theorem parse_wf (toks : List String) (t : PyVal)
    (h : Parser.parse toks = Except.ok t) : wf_tree t = true := by
  cases toks with
  | nil => exact Except.noConfusion h
  | cons a rest =>
    simp only [Parser.parse] at h
    rcases hp : parse_low_prec_expr (parseFuel (a :: rest))
        ⟨a :: rest, 0, some (pyLower a)⟩ with e | ⟨expr, s1⟩ <;> rw [hp] at h
    · exact Except.noConfusion h
    dsimp only at h
    by_cases hl : s1.lookahead ≠ none
    · rw [if_pos hl] at h
      exact Except.noConfusion h
    · rw [if_neg hl] at h
      cases h
      exact (parse_wf_all _).2.2.2.2.2.2 _ _ _ hp

theorem parse_lines_wf (ls : List (List String)) (exprs : List PyVal)
    (h : parse_lines ls = Except.ok exprs) :
    ∀ e ∈ exprs, wf_tree e = true := by
  induction ls generalizing exprs with
  | nil =>
    simp only [parse_lines] at h
    cases h
    intro e he
    cases he
  | cons a rest ih =>
    simp only [parse_lines] at h
    by_cases ha : a.isEmpty = true
    · rw [if_pos ha] at h
      exact ih exprs h
    · rw [if_neg ha] at h
      rcases hp : Parser.parse a with e | expr <;> rw [hp] at h
      · exact Except.noConfusion h
      dsimp only at h
      rcases hr : parse_lines rest with e | rexprs <;> rw [hr] at h
      · exact Except.noConfusion h
      dsimp only at h
      cases h
      intro e2 he2
      rcases List.mem_cons.mp he2 with rfl | he3
      · exact parse_wf a e2 hp
      · exact ih rexprs hr e2 he3

theorem indexOf?_of_mem (s : String) (l : List String) (h : s ∈ l) :
    ∃ i, l.indexOf? s = some i ∧ i < l.length := by
  induction l with
  | nil => cases h
  | cons a rest ih =>
    rw [List.indexOf?_cons]
    by_cases ha : (a == s) = true
    · exact ⟨0, by rw [if_pos ha], by simp⟩
    · rcases List.mem_cons.mp h with rfl | h2
      · exact absurd (by simp) ha
      · obtain ⟨i, hi, hlt⟩ := ih h2
        refine ⟨i + 1, by rw [if_neg ha, hi]; rfl, ?_⟩
        simp only [List.length_cons]
        omega

theorem solve_expr_total (vars : List String) (values : List Bool)
    (hlen : values.length = vars.length) :
    ∀ e, wf_tree e = true → (∀ nm ∈ leaf_names e, nm ∈ vars) →
      ∃ b, solve_expr vars values e = some b := by
  intro e
  induction e with
  | node l r ty ihl ihr =>
    intro hwf hsub
    simp only [wf_tree] at hwf
    by_cases hv : ty = "var"
    · rw [if_pos hv] at hwf
      obtain ⟨hstr, hrn⟩ := Bool.and_eq_true_iff.mp hwf
      match l, hstr with
      | PyVal.str nm, _ =>
        subst hv
        by_cases h0 : nm = "0"
        · exact ⟨false, by rw [h0]; exact solve_expr_const0 vars values r⟩
        by_cases h1 : nm = "1"
        · exact ⟨true, by rw [h1]; exact solve_expr_const1 vars values r⟩
        have hmem : nm ∈ vars := by
          apply hsub
          simp [leaf_names, h0, h1]
        obtain ⟨i, hi, hlt⟩ := indexOf?_of_mem nm vars hmem
        have hrn2 : r = PyVal.pynone := by simpa using hrn
        subst hrn2
        have hlt2 : i < values.length := by omega
        exact ⟨values.get ⟨i, hlt2⟩,
          (solve_expr_var_lookup vars values nm i h0 h1 hi).trans
            (List.get?_eq_get hlt2)⟩
    · rw [if_neg hv] at hwf
      by_cases hbang : ty = "!"
      · rw [if_pos hbang] at hwf
        obtain ⟨hwl, hrn⟩ := Bool.and_eq_true_iff.mp hwf
        subst hbang
        have hsubl : ∀ nm ∈ leaf_names l, nm ∈ vars := by
          intro nm hnm
          apply hsub
          simp [leaf_names, hnm]
        obtain ⟨bl, hbl⟩ := ihl hwl hsubl
        exact ⟨!bl, by rw [solve_expr_not, hbl]; rfl⟩
      · rw [if_neg hbang] at hwf
        by_cases hbin : (ty = "&" || ty = "|" || ty = "^" || ty = "=" ||
            ty = "nand" || ty = "nor" || ty = ">") = true
        · rw [if_pos hbin] at hwf
          obtain ⟨hwl, hwr⟩ := Bool.and_eq_true_iff.mp hwf
          have hsubl : ∀ nm ∈ leaf_names l, nm ∈ vars := by
            intro nm hnm
            apply hsub
            simp [leaf_names, hv, hnm]
          have hsubr : ∀ nm ∈ leaf_names r, nm ∈ vars := by
            intro nm hnm
            apply hsub
            simp [leaf_names, hv, hnm]
          obtain ⟨bl, hbl⟩ := ihl hwl hsubl
          obtain ⟨br, hbr⟩ := ihr hwr hsubr
          have hcases := hbin
          simp only [Bool.or_eq_true, decide_eq_true_eq] at hcases
          rcases hcases with ((((((rfl | rfl) | rfl) | rfl) | rfl) | rfl) | rfl)
          · cases bl <;> simp [solve_expr_and, hbl, hbr]
          · cases bl <;> simp [solve_expr_or, hbl, hbr]
          · simp [solve_expr_xor, hbl, hbr]
          · simp [solve_expr_iff, hbl, hbr]
          · cases bl <;> simp [solve_expr_nand, hbl, hbr]
          · cases bl <;> simp [solve_expr_nor, hbl, hbr]
          · cases bl <;> simp [solve_expr_imp, hbl, hbr]
        · rw [if_neg hbin] at hwf
          cases hwf
  | str nm =>
    intro hwf
    simp [wf_tree] at hwf
  | pynone =>
    intro hwf
    simp [wf_tree] at hwf

/-- C9: evaluation is total on parser output: every tree a successful parse
returns is well-shaped (tags among the nine handled ones, binary tags with two
tree children, `!` with one, `var` with a string payload), the collected
variable list covers every non-constant leaf name, and so the evaluator
returns `some` boolean on every tree of the set, for every assignment vector
of the right length. -/
theorem C9_parser_output_evaluates (lines : List (List String))
    (exprs : List PyVal) (hp : parse_lines lines = Except.ok exprs) :
    (∀ e ∈ exprs, wf_tree e = true) ∧
    ∃ vs, solver_vars exprs = some vs ∧
      ∀ values : List Bool, values.length = vs.length →
        ∀ e ∈ exprs, ∃ b, solve_expr vs values e = some b := by
  have hwf := parse_lines_wf lines exprs hp
  refine ⟨hwf, ?_⟩
  obtain ⟨vs, hvs, hsort, hnd, hmem, _⟩ := C8_variable_collector exprs hwf
  refine ⟨vs, hvs, ?_⟩
  intro values hlen e he
  refine solve_expr_total vs values ?_ e (hwf e he) ?_
  · -- values.length = vs.length
    exact hlen
  · intro nm hnm
    exact (hmem nm).mpr ⟨e, he, hnm⟩

/-- Witness for C9 on the single line `"a ^ b"`. -/
theorem C9_parser_output_evaluates_witness :
    (∀ e ∈ [PyVal.node (varLeaf "a") (varLeaf "b") "^"], wf_tree e = true) ∧
    ∃ vs, solver_vars [PyVal.node (varLeaf "a") (varLeaf "b") "^"] = some vs ∧
      ∀ values : List Bool, values.length = vs.length →
        ∀ e ∈ [PyVal.node (varLeaf "a") (varLeaf "b") "^"],
          ∃ b, solve_expr vs values e = some b :=
  C9_parser_output_evaluates [["a", "^", "b"]]
    [PyVal.node (varLeaf "a") (varLeaf "b") "^"] (by decide)

/-! ## Claim C10 -/

theorem toLower_ne_of_isUpper (c : Char) (h : c.isUpper = true) :
    Char.toLower c ≠ c := by
  have hb : 65 ≤ c.toNat ∧ c.toNat ≤ 90 := by
    simp only [Char.isUpper, Bool.and_eq_true, decide_eq_true_eq] at h
    obtain ⟨h1, h2⟩ := h
    rw [ge_iff_le] at h1
    rw [UInt32.le_def, BitVec.le_def] at h1 h2
    exact ⟨h1, h2⟩
  have hv : (c.toNat + 32).isValidChar := Or.inl (by omega)
  have ht : (Char.toLower c).toNat = c.toNat + 32 := by
    show (if c.toNat ≥ 65 ∧ c.toNat ≤ 90 then Char.ofNat (c.toNat + 32)
      else c).toNat = c.toNat + 32
    rw [if_pos ⟨hb.1, hb.2⟩]
    unfold Char.ofNat
    rw [dif_pos hv]
    rfl
  intro he
  rw [he] at ht
  omega

theorem list_map_ne_of_mem {α : Type} (f : α → α) :
    ∀ l : List α, (∃ c ∈ l, f c ≠ c) → l.map f ≠ l
  | [], ⟨c, hc, _⟩ => absurd hc (List.not_mem_nil c)
  | a :: as, ⟨c, hc, hne⟩ => by
    intro he
    simp only [List.map_cons, List.cons.injEq] at he
    rcases List.mem_cons.mp hc with rfl | hmem
    · exact hne he.1
    · exact list_map_ne_of_mem f as ⟨c, hmem, hne⟩ he.2

theorem pyLower_ne_of_upper (t : String) (h : ∃ c ∈ t.data, c.isUpper = true) :
    pyLower t ≠ t := by
  intro he
  have hmap : t.data.map Char.toLower = t.data := congrArg String.data he
  obtain ⟨c, hc, hu⟩ := h
  exact list_map_ne_of_mem Char.toLower t.data
    ⟨c, hc, toLower_ne_of_isUpper c hu⟩ hmap

theorem parse_primary_expr_mismatch (f : Nat) (s : ParserState) (t : String)
    (hl : s.lookahead = some (pyLower t))
    (htok : s.toks.get? s.curr_pos = some t)
    (hne : pyLower t ≠ t) (hnb : t ≠ "!") (hnp : t ≠ "(") :
    ∃ msg, parse_primary_expr (f + 1) s = Except.error msg := by
  simp only [parse_primary_expr, hl]
  by_cases h1 : pyLower t = "!"
  · rw [if_pos (by rw [h1])]
    have hcons : consume "!" s =
        Except.error ("[Error] Expected '" ++ "!" ++ "' but got '" ++ t ++
          "' instead") := by
      simp only [consume, htok]
      rw [if_pos hnb]
    rw [hcons]
    exact ⟨_, rfl⟩
  · rw [if_neg (by simp [h1])]
    by_cases h2 : pyLower t = "("
    · rw [if_pos (by rw [h2])]
      have hcons : consume "(" s =
          Except.error ("[Error] Expected '" ++ "(" ++ "' but got '" ++ t ++
            "' instead") := by
        simp only [consume, htok]
        rw [if_pos hnp]
      rw [hcons]
      exact ⟨_, rfl⟩
    · rw [if_neg (by simp [h2])]
      by_cases h3 : ¬ is_keyword (some (pyLower t)) = true
      · rw [if_pos h3]
        have hcons : consume ((some (pyLower t)).getD "") s =
            Except.error ("[Error] Expected '" ++ pyLower t ++ "' but got '" ++
              t ++ "' instead") := by
          simp only [consume, htok, Option.getD_some]
          rw [if_pos (Ne.symm hne)]
        rw [hcons]
        exact ⟨_, rfl⟩
      · rw [if_neg h3]
        exact ⟨_, rfl⟩

theorem parse_low_prec_expr_error (f : Nat) (s : ParserState) (msg : String)
    (h : parse_primary_expr (f + 1) s = Except.error msg) :
    parse_low_prec_expr (f + 1 + 1 + 1 + 1) s = Except.error msg := by
  have hh : parse_high_prec_expr (f + 1 + 1) s = Except.error msg := by
    simp only [parse_high_prec_expr]
    rw [h]
  have hm : parse_med_prec_expr (f + 1 + 1 + 1) s = Except.error msg := by
    simp only [parse_med_prec_expr]
    rw [hh]
  simp only [parse_low_prec_expr]
  rw [hm]

/-- C10: an input line whose first token contains an uppercase letter fails
to parse: the parser lower-cases only the initial lookahead while `_consume`
compares the raw token against it; identifiers after the first token are
unaffected. -/
theorem C10_uppercase_first_token :
    (∀ (t : String) (rest : List String),
      (∃ c ∈ t.data, c.isUpper = true) →
      ∃ msg, Parser.parse (t :: rest) = Except.error msg) ∧
    Parser.parse (tokenize_expr "A & b") =
      Except.error "[Error] Expected 'a' but got 'A' instead" ∧
    Parser.parse (tokenize_expr "a & B") =
      Except.ok (PyVal.node (varLeaf "a") (varLeaf "B") "&") := by
  refine ⟨?_, by decide, by decide⟩
  intro t rest hup
  have hne : pyLower t ≠ t := pyLower_ne_of_upper t hup
  have hnb : t ≠ "!" := by
    rintro rfl
    obtain ⟨c, hc, hu⟩ := hup
    have hd : ("!" : String).data = ['!'] := rfl
    rw [hd, List.mem_singleton] at hc
    subst hc
    exact absurd hu (by decide)
  have hnp : t ≠ "(" := by
    rintro rfl
    obtain ⟨c, hc, hu⟩ := hup
    have hd : ("(" : String).data = ['('] := rfl
    rw [hd, List.mem_singleton] at hc
    subst hc
    exact absurd hu (by decide)
  obtain ⟨msg, hmsg⟩ := parse_primary_expr_mismatch (8 * rest.length + 12)
    ⟨t :: rest, 0, some (pyLower t)⟩ t rfl rfl hne hnb hnp
  refine ⟨msg, ?_⟩
  simp only [Parser.parse]
  have hfuel : parseFuel (t :: rest) = 8 * rest.length + 12 + 1 + 1 + 1 + 1 := by
    simp only [parseFuel, List.length_cons]
    omega
  rw [hfuel, parse_low_prec_expr_error _ _ _ hmsg]

/-- Witness for C10: the line `"A & b"` (first token `"A"`) fails to parse. -/
theorem C10_uppercase_first_token_witness :
    ∃ msg, Parser.parse ["A", "&", "b"] = Except.error msg :=
  C10_uppercase_first_token.1 "A" ["&", "b"] ⟨'A', by decide, by decide⟩

end ProplSolver
